import Mathlib

/-!
Formal model of the BMC CPAP analyzer pipeline (bmc_cpap_analyzer.py,
bmc_sleep_analyzer.py, detailed_event_analyzer.py).

Byte buffers are modelled as a length together with an index function; all
byte accesses made by the decoders are in bounds whenever the corresponding
Python code reads them, so the function view is faithful.  Python floats are
modelled by exact rationals: every constant appearing in the sources is a
finite decimal, and every comparison settled below is far from the rounding
error of IEEE doubles, so the comparisons agree with the Python runtime.
-/

/-- Model of an immutable byte buffer (Python `bytes`): a length and the byte
at each index. -/
structure RawBuffer where
  len : ℕ
  byte : ℕ → ℕ

/-- Model of `struct.unpack('<H', data[i:i+2])[0]`: 2-byte little-endian
unsigned decode at offset `i`. -/
def le16 (b : RawBuffer) (i : ℕ) : ℕ :=
  b.byte i + 256 * b.byte (i + 1)

/-- Model of `struct.unpack('<I', data[i:i+4])[0]`: 4-byte little-endian
unsigned decode at offset `i`. -/
def le32 (b : RawBuffer) (i : ℕ) : ℕ :=
  b.byte i + 256 * b.byte (i + 1) + 65536 * b.byte (i + 2) + 16777216 * b.byte (i + 3)

/-- Model of Python `range(0, n, stride)`: the multiples of `stride` below
`n`, in increasing order. -/
def stridePositions (stride n : ℕ) : List ℕ :=
  (List.range ((n + stride - 1) / stride)).map (· * stride)

theorem mem_stridePositions {s n i : ℕ} (hs : 0 < s) :
    i ∈ stridePositions s n ↔ s ∣ i ∧ i < n := by
  unfold stridePositions
  simp only [List.mem_map, List.mem_range]
  constructor
  · rintro ⟨k, hk, rfl⟩
    refine ⟨dvd_mul_left s k, ?_⟩
    have h1 : (k + 1) * s ≤ n + s - 1 := (Nat.le_div_iff_mul_le hs).mp hk
    rw [Nat.succ_mul] at h1
    obtain ⟨m, hm⟩ : ∃ m, m = k * s := ⟨_, rfl⟩
    rw [← hm] at h1 ⊢
    omega
  · rintro ⟨⟨k, rfl⟩, hlt⟩
    refine ⟨k, ?_, mul_comm k s⟩
    rw [Nat.lt_iff_add_one_le, Nat.le_div_iff_mul_le hs, Nat.succ_mul]
    rw [mul_comm s k] at hlt
    obtain ⟨m, hm⟩ : ∃ m, m = k * s := ⟨_, rfl⟩
    rw [← hm] at hlt ⊢
    omega

/-- A decoded pressure sample: byte offset into the buffer and the decoded
pressure value in cmH2O. -/
structure Sample where
  position : ℕ
  value : ℚ
deriving DecidableEq

/-- Model of the inner divisor loop shared by `_parse_pressure_data` and
`_extract_pressure_data`: try each candidate divisor in order and return
`raw / divisor` for the first divisor that places it inside `[lo, hi]`;
return `none` when no divisor matches. -/
def firstDivMatch (divisors : List ℚ) (lo hi : ℚ) (val : ℕ) : Option ℚ :=
  match divisors with
  | [] => none
  | d :: ds =>
    if lo ≤ (val : ℚ) / d ∧ (val : ℚ) / d ≤ hi then some ((val : ℚ) / d)
    else firstDivMatch ds lo hi val

/-- Model of the sample-decoding loop (`for i in range(0, len(data)-1, stride)`
with the divisor loop in its body): slide a 2-byte little-endian window over
the buffer at the given stride and emit one sample per window via the
first-match divisor policy. -/
def decodeSamples (divisors : List ℚ) (lo hi : ℚ) (stride : ℕ) (b : RawBuffer) : List Sample :=
  (stridePositions stride (b.len - 1)).filterMap fun i =>
    (firstDivMatch divisors lo hi (le16 b i)).map fun v => ⟨i, v⟩

/-- Model of `BMCCPAPAnalyzer._parse_pressure_data`: divisors
`[12.5, 13.0, 13.5, 14.0]`, band `avg_pressure ± 2 = [6, 10]`, stride 2;
the Python function keeps only the values. -/
def parsePressureData (b : RawBuffer) : List ℚ :=
  (decodeSamples [12.5, 13, 13.5, 14] 6 10 2 b).map Sample.value

/-- Model of `BMCSleepAnalyzer._extract_pressure_data`'s per-file loop:
divisors `[12.5, 13.0, 13.5, 14.0, 15.0]`, therapeutic band `[4, 20]`,
stride 2. -/
def extractPressureData (b : RawBuffer) : List ℚ :=
  (decodeSamples [12.5, 13, 13.5, 14, 15] 4 20 2 b).map Sample.value

theorem firstDivMatch_eq_of_first (divisors : List ℚ) (lo hi : ℚ) (val : ℕ) :
    ∀ (j : ℕ) (hj : j < divisors.length),
      lo ≤ (val : ℚ) / divisors.get ⟨j, hj⟩ →
      (val : ℚ) / divisors.get ⟨j, hj⟩ ≤ hi →
      (∀ (k : ℕ) (hk : k < divisors.length), k < j →
        ¬(lo ≤ (val : ℚ) / divisors.get ⟨k, hk⟩ ∧ (val : ℚ) / divisors.get ⟨k, hk⟩ ≤ hi)) →
      firstDivMatch divisors lo hi val = some ((val : ℚ) / divisors.get ⟨j, hj⟩) := by
  induction divisors with
  | nil => intro j hj; exact absurd hj (by simp)
  | cons d ds ih =>
    intro j hj hlo hhi hnone
    match j with
    | 0 =>
      simp only [List.get] at hlo hhi
      simp [firstDivMatch, if_pos (And.intro hlo hhi)]
    | j' + 1 =>
      have hhead : ¬(lo ≤ (val : ℚ) / d ∧ (val : ℚ) / d ≤ hi) := by
        have := hnone 0 (by simp) (Nat.succ_pos j')
        simpa using this
      have hj' : j' < ds.length := by simpa using hj
      rw [List.get_cons_succ] at hlo hhi
      have hnone' : ∀ (k : ℕ) (hk : k < ds.length), k < j' →
          ¬(lo ≤ (val : ℚ) / ds.get ⟨k, hk⟩ ∧ (val : ℚ) / ds.get ⟨k, hk⟩ ≤ hi) := by
        intro k hk hkj
        have := hnone (k + 1) (by simpa using hk) (by omega)
        rwa [List.get_cons_succ] at this
      rw [firstDivMatch, if_neg hhead, ih j' hj' hlo hhi hnone']
      rw [List.get_cons_succ]

theorem mem_decodeSamples {divisors : List ℚ} {lo hi : ℚ} {stride : ℕ} {b : RawBuffer}
    {i : ℕ} {v : ℚ} :
    Sample.mk i v ∈ decodeSamples divisors lo hi stride b ↔
      i ∈ stridePositions stride (b.len - 1) ∧
        firstDivMatch divisors lo hi (le16 b i) = some v := by
  unfold decodeSamples
  rw [List.mem_filterMap]
  constructor
  · rintro ⟨a, ha, heq⟩
    rw [Option.map_eq_some'] at heq
    obtain ⟨w, hw, hmk⟩ := heq
    have : a = i ∧ w = v := by
      constructor <;> [exact congrArg Sample.position hmk; exact congrArg Sample.value hmk]
    obtain ⟨rfl, rfl⟩ := this
    exact ⟨ha, hw⟩
  · rintro ⟨ha, hw⟩
    exact ⟨i, ha, by rw [hw]; rfl⟩

/-- C1: first-match divisor policy of sample decoding.  For any window of the
scan, if the divisor at index `j` is the first in the list that places
`raw / divisor` inside `[lo, hi]`, then the sample emitted for that window has
value `raw / divisors[j]`, and no other value (in particular no later
divisor's value) is ever emitted for that window. -/
theorem first_match_divisor_policy (divisors : List ℚ) (lo hi : ℚ) (stride : ℕ)
    (b : RawBuffer) (i j : ℕ) (hj : j < divisors.length)
    (hlo : lo ≤ (le16 b i : ℚ) / divisors.get ⟨j, hj⟩)
    (hhi : (le16 b i : ℚ) / divisors.get ⟨j, hj⟩ ≤ hi)
    (hfirst : ∀ (k : ℕ) (hk : k < divisors.length), k < j →
      ¬(lo ≤ (le16 b i : ℚ) / divisors.get ⟨k, hk⟩ ∧
        (le16 b i : ℚ) / divisors.get ⟨k, hk⟩ ≤ hi)) :
    (i ∈ stridePositions stride (b.len - 1) →
      Sample.mk i ((le16 b i : ℚ) / divisors.get ⟨j, hj⟩) ∈
        decodeSamples divisors lo hi stride b) ∧
    ∀ v : ℚ, Sample.mk i v ∈ decodeSamples divisors lo hi stride b →
      v = (le16 b i : ℚ) / divisors.get ⟨j, hj⟩ := by
  have hfdm := firstDivMatch_eq_of_first divisors lo hi (le16 b i) j hj hlo hhi hfirst
  constructor
  · intro hpos
    exact mem_decodeSamples.mpr ⟨hpos, hfdm⟩
  · intro v hv
    have := (mem_decodeSamples.mp hv).2
    rw [hfdm] at this
    exact (Option.some.inj this).symm

/-- Concrete 2-byte buffer holding the raw little-endian value 104. -/
def bufC1 : RawBuffer :=
  ⟨2, fun i => if i = 0 then 104 else 0⟩

/-- C1 witness: for raw value 104, band `[6, 10]`, and the divisor list
`[12.5, 13.0, 13.5, 14.0]`, the emitted value is `104 / 12.5 = 8.32`
(the first matching divisor), never `104 / 13.0 = 8.0`. -/
theorem first_match_divisor_policy_witness :
    Sample.mk 0 (208/25) ∈ decodeSamples [12.5, 13, 13.5, 14] 6 10 2 bufC1 ∧
    Sample.mk 0 8 ∉ decodeSamples [12.5, 13, 13.5, 14] 6 10 2 bufC1 := by
  have hval : le16 bufC1 0 = 104 := by norm_num [le16, bufC1]
  have h := first_match_divisor_policy [12.5, 13, 13.5, 14] 6 10 2 bufC1 0 0 (by norm_num)
    (by rw [hval]; simp only [List.get]; norm_num)
    (by rw [hval]; simp only [List.get]; norm_num)
    (fun k hk hk0 => absurd hk0 (Nat.not_lt_zero k))
  constructor
  · have hmem := h.1 (by decide)
    have hv : (le16 bufC1 0 : ℚ) / ([12.5, 13, 13.5, 14] : List ℚ).get ⟨0, by norm_num⟩
        = 208/25 := by
      rw [hval]; simp only [List.get]; norm_num
    rwa [hv] at hmem
  · intro hmem
    have h8 := h.2 8 hmem
    rw [hval] at h8
    simp only [List.get] at h8
    norm_num at h8

/-- Table of BMC event types (`self.event_types` in DetailedEventAnalyzer),
keyed by the 1-byte type code. -/
def eventTypes : List (ℕ × String) :=
  [(1, "Obstructive Apnea"), (2, "Hypopnea"), (3, "Central Apnea"),
   (4, "Mixed Apnea"), (5, "Flow Limitation"),
   (6, "RERA (Respiratory Effort Related Arousal)"), (7, "Large Leak"),
   (8, "Mask Off"), (9, "Clear Airway"), (10, "Periodic Breathing"),
   (170, "Marker/Timestamp"), (255, "Session End")]

/-- The type codes present in the event table (the keys of `event_types`). -/
def eventTypeCodes : List ℕ := eventTypes.map Prod.fst

/-- Uppercase hexadecimal digit for a value below 16. -/
def hexDigit (n : ℕ) : Char :=
  if n < 10 then Char.ofNat (48 + n) else Char.ofNat (55 + n)

/-- Model of Python `f"{n:02X}"` for a byte value: two uppercase hex digits. -/
def hexByte (n : ℕ) : String :=
  String.mk [hexDigit (n / 16 % 16), hexDigit (n % 16)]

/-- Model of `self.event_types.get(code, f"Unknown_0x{code:02X}")`. -/
def eventKindName (code : ℕ) : String :=
  (eventTypes.lookup code).getD ("Unknown_0x" ++ hexByte code)

/-- Two-digit zero-padded decimal rendering, Python `f"{n:02d}"` for `n < 100`. -/
def pad2 (n : ℕ) : String :=
  (if n < 10 then "0" else "") ++ toString n

/-- Model of `DetailedEventAnalyzer._timestamp_to_time`: reduce the raw
timestamp modulo 86400 seconds and render hours and minutes as `"HH:MM"`. -/
def timestampToTime (ts : ℕ) : String :=
  pad2 (ts % 86400 / 3600) ++ ":" ++ pad2 (ts % 86400 % 3600 / 60)

/-- A decoded discrete event, mirroring the dictionary built by
`_parse_event_block` (fields irrelevant to the claims are omitted;
`raw_type_code` is kept as the numeric code). -/
structure Event where
  time : String
  kind : String
  severity : String
  duration : ℕ
  typeCode : ℕ
  src : String
  position : ℕ
deriving DecidableEq

/-- Model of a Python slice `data[start:start+size]` as a view into the
buffer. -/
def byteSlice (b : RawBuffer) (start size : ℕ) : RawBuffer :=
  ⟨min size (b.len - start), fun j => b.byte (start + j)⟩

/-- Model of `DetailedEventAnalyzer._parse_event_block`: decode a 4-byte
little-endian timestamp at block offset 0, a 1-byte type code at offset 4,
and a 2-byte little-endian duration at offsets 5-6; classify severity by the
duration thresholds 30/15/5; return an event only when the type code is in
the event table or the duration is positive. -/
def parseEventBlock (block : RawBuffer) (position : ℕ) (srcTag : String) : Option Event :=
  if 8 ≤ block.len then
    if block.byte 4 ∈ eventTypeCodes ∨ 0 < le16 block 5 then
      some ⟨timestampToTime (le32 block 0),
            eventKindName (block.byte 4),
            if 30 < le16 block 5 then "Severe"
            else if 15 < le16 block 5 then "Moderate"
            else if 5 < le16 block 5 then "Mild" else "Minimal",
            le16 block 5, block.byte 4, srcTag, position⟩
    else none
  else none

/-- Model of `DetailedEventAnalyzer._parse_aaaa_markers`: scan the 4-byte
aligned offsets below `len - 4`; where the four bytes equal `0xAA 0xAA 0xAA
0xAA` and the 32-byte block starting at the marker ends strictly before the
end of the buffer, decode that block with `_parse_event_block`. -/
def parseAaaaMarkers (b : RawBuffer) : List Event :=
  (stridePositions 4 (b.len - 4)).filterMap fun i =>
    if b.byte i = 170 ∧ b.byte (i + 1) = 170 ∧ b.byte (i + 2) = 170 ∧ b.byte (i + 3) = 170 then
      if i + 32 < b.len then parseEventBlock (byteSlice b i 32) i "aaaa_marker" else none
    else none

theorem byteSlice_byte (b : RawBuffer) (start size j : ℕ) :
    (byteSlice b start size).byte j = b.byte (start + j) := rfl

theorem le16_byteSlice (b : RawBuffer) (start size j : ℕ) :
    le16 (byteSlice b start size) j = le16 b (start + j) := by
  simp [le16, byteSlice, Nat.add_assoc]

theorem le32_byteSlice (b : RawBuffer) (start size j : ℕ) :
    le32 (byteSlice b start size) j = le32 b (start + j) := by
  simp [le32, byteSlice, Nat.add_assoc]

theorem parseEventBlock_eq_some {block : RawBuffer} {pos : ℕ} {tag : String} {e : Event} :
    parseEventBlock block pos tag = some e ↔
      8 ≤ block.len ∧ (block.byte 4 ∈ eventTypeCodes ∨ 0 < le16 block 5) ∧
      e = ⟨timestampToTime (le32 block 0), eventKindName (block.byte 4),
           if 30 < le16 block 5 then "Severe"
           else if 15 < le16 block 5 then "Moderate"
           else if 5 < le16 block 5 then "Mild" else "Minimal",
           le16 block 5, block.byte 4, tag, pos⟩ := by
  unfold parseEventBlock
  by_cases h1 : 8 ≤ block.len
  · rw [if_pos h1]
    by_cases h2 : block.byte 4 ∈ eventTypeCodes ∨ 0 < le16 block 5
    · rw [if_pos h2]
      simp [h1, h2, eq_comm]
    · rw [if_neg h2]
      simp [h1, h2]
  · rw [if_neg h1]
    simp [h1]

theorem mem_parseAaaaMarkers {b : RawBuffer} {e : Event} :
    e ∈ parseAaaaMarkers b ↔
      ∃ i, i ∈ stridePositions 4 (b.len - 4) ∧
        (b.byte i = 170 ∧ b.byte (i + 1) = 170 ∧ b.byte (i + 2) = 170 ∧ b.byte (i + 3) = 170) ∧
        i + 32 < b.len ∧ parseEventBlock (byteSlice b i 32) i "aaaa_marker" = some e := by
  unfold parseAaaaMarkers
  rw [List.mem_filterMap]
  constructor
  · rintro ⟨i, hi, heq⟩
    by_cases hm : b.byte i = 170 ∧ b.byte (i + 1) = 170 ∧ b.byte (i + 2) = 170 ∧ b.byte (i + 3) = 170
    · rw [if_pos hm] at heq
      by_cases hf : i + 32 < b.len
      · rw [if_pos hf] at heq
        exact ⟨i, hi, hm, hf, heq⟩
      · rw [if_neg hf] at heq
        exact absurd heq (by simp)
    · rw [if_neg hm] at heq
      exact absurd heq (by simp)
  · rintro ⟨i, hi, hm, hf, heq⟩
    exact ⟨i, hi, by rw [if_pos hm, if_pos hf]; exact heq⟩

/-- C2 (amended): marker-pass event decoding.  For every 4-byte-aligned
occurrence of the marker `0xAAAAAAAA` followed strictly by more than 32 bytes
from the marker start (`i + 32 < len`, not merely a block that fits exactly),
the pass decodes the 4-byte little-endian timestamp, the 1-byte type code and
the 2-byte little-endian duration from the 32-byte block that begins at the
marker, maps unmapped type codes to an `Unknown_0x..` label, classifies
severity by the thresholds 30/15/5, and emits an event exactly when the type
code is in the enumeration table or the duration is positive. -/
theorem marker_event_decoding :
    (∀ (b : RawBuffer) (i : ℕ), 4 ∣ i → i + 32 < b.len →
      b.byte i = 170 → b.byte (i + 1) = 170 → b.byte (i + 2) = 170 → b.byte (i + 3) = 170 →
      (b.byte (i + 4) ∈ eventTypeCodes ∨ 0 < le16 b (i + 5)) →
      ∃ e, e ∈ parseAaaaMarkers b ∧ e.position = i ∧
        e.time = timestampToTime (le32 b i) ∧
        e.typeCode = b.byte (i + 4) ∧ e.duration = le16 b (i + 5) ∧
        e.kind = eventKindName (b.byte (i + 4)) ∧
        (eventTypes.lookup (b.byte (i + 4)) = none →
          e.kind = "Unknown_0x" ++ hexByte (b.byte (i + 4))) ∧
        e.severity = (if 30 < le16 b (i + 5) then "Severe"
          else if 15 < le16 b (i + 5) then "Moderate"
          else if 5 < le16 b (i + 5) then "Mild" else "Minimal")) ∧
    ∀ (b : RawBuffer) (e : Event), e ∈ parseAaaaMarkers b →
      e.typeCode ∈ eventTypeCodes ∨ 0 < e.duration := by
  constructor
  · intro b i hdvd hfit h0 h1 h2 h3 hcond
    have hslice4 : (byteSlice b i 32).byte 4 = b.byte (i + 4) := rfl
    have hslice16 : le16 (byteSlice b i 32) 5 = le16 b (i + 5) := le16_byteSlice b i 32 5
    have hslice32 : le32 (byteSlice b i 32) 0 = le32 b i := by
      rw [le32_byteSlice]
      simp
    have hlen : 8 ≤ (byteSlice b i 32).len := by
      show 8 ≤ min 32 (b.len - i)
      omega
    refine ⟨⟨timestampToTime (le32 b i), eventKindName (b.byte (i + 4)),
      if 30 < le16 b (i + 5) then "Severe"
      else if 15 < le16 b (i + 5) then "Moderate"
      else if 5 < le16 b (i + 5) then "Mild" else "Minimal",
      le16 b (i + 5), b.byte (i + 4), "aaaa_marker", i⟩, ?_, rfl, rfl, rfl, rfl, rfl, ?_, rfl⟩
    · refine mem_parseAaaaMarkers.mpr ⟨i, ?_, ⟨h0, h1, h2, h3⟩, hfit, ?_⟩
      · exact (mem_stridePositions (by norm_num)).mpr ⟨hdvd, by omega⟩
      · rw [parseEventBlock_eq_some]
        refine ⟨hlen, ?_, ?_⟩
        · rw [hslice4, hslice16]; exact hcond
        · rw [hslice4, hslice16, hslice32]
    · intro hnone
      simp [eventKindName, hnone]
  · intro b e hmem
    obtain ⟨i, _, _, _, heq⟩ := mem_parseAaaaMarkers.mp hmem
    obtain ⟨_, hcond, rfl⟩ := parseEventBlock_eq_some.mp heq
    exact hcond

/-- Concrete 32-byte buffer: the marker at offset 0 followed by type code
0x01 and little-endian duration 35; the 32-byte block fills the buffer
exactly. -/
def bufC2x : RawBuffer :=
  ⟨32, fun i => if i < 4 then 170 else if i = 4 then 1 else if i = 5 then 35 else 0⟩

/-- C2 counterexample: the marker at offset 0 is 4-byte aligned, its 32-byte
block fits in the 32-byte buffer, and its type code is in the enumeration
table, yet the marker pass emits no event: the code requires `i + 32 <
len(data)` (strict), skipping a block that fits exactly. -/
theorem marker_event_decoding_counterexample :
    (4 ∣ (0 : ℕ)) ∧ 0 + 32 ≤ bufC2x.len ∧
    bufC2x.byte 0 = 170 ∧ bufC2x.byte 1 = 170 ∧
    bufC2x.byte 2 = 170 ∧ bufC2x.byte 3 = 170 ∧
    bufC2x.byte 4 ∈ eventTypeCodes ∧
    parseAaaaMarkers bufC2x = [] := by
  refine ⟨⟨0, rfl⟩, by decide, by decide, by decide, by decide, by decide, by decide, ?_⟩
  decide

/-- Concrete 34-byte buffer: marker at offset 0, type code 0x01, duration 35. -/
def bufC2w : RawBuffer :=
  ⟨34, fun i => if i < 4 then 170 else if i = 4 then 1 else if i = 5 then 35 else 0⟩

/-- C2 witness (Scenario D): a block with type code 0x01 and duration 35
yields kind Obstructive Apnea with severity Severe. -/
theorem marker_event_decoding_witness :
    ∃ e, e ∈ parseAaaaMarkers bufC2w ∧ e.kind = "Obstructive Apnea" ∧
      e.severity = "Severe" ∧ e.duration = 35 ∧ e.typeCode = 1 := by
  obtain ⟨e, hmem, hpos, ht, hty, hdur, hkind, hunk, hsev⟩ :=
    marker_event_decoding.1 bufC2w 0 ⟨0, rfl⟩ (by decide)
      (by decide) (by decide) (by decide) (by decide) (by decide)
  refine ⟨e, hmem, ?_, ?_, ?_, ?_⟩
  · rw [hkind]; decide
  · rw [hsev]; decide
  · rw [hdur]; decide
  · rw [hty]; decide

/-- C9: every event emitted by the marker pass decodes its timestamp from the
block beginning at the marker itself, so the timestamp value is the constant
`0xAAAAAAAA = 2863311530` and every marker-pass event carries the identical
clock-of-day string `"04:18"` (2863311530 mod 86400 seconds); the type code
is the byte immediately after the marker. -/
theorem marker_timestamp_constant (b : RawBuffer) (e : Event)
    (hmem : e ∈ parseAaaaMarkers b) :
    e.time = timestampToTime 2863311530 ∧ e.time = "04:18" ∧
    e.typeCode = b.byte (e.position + 4) := by
  obtain ⟨i, _, ⟨h0, h1, h2, h3⟩, hfit, heq⟩ := mem_parseAaaaMarkers.mp hmem
  obtain ⟨_, _, rfl⟩ := parseEventBlock_eq_some.mp heq
  have hts : le32 (byteSlice b i 32) 0 = 2863311530 := by
    rw [le32_byteSlice]
    show le32 b i = 2863311530
    unfold le32
    rw [h0]
    rw [show i + 0 + 1 = i + 1 from by omega] at *
    rw [h1, show i + 0 + 2 = i + 2 from by omega, h2,
        show i + 0 + 3 = i + 3 from by omega, h3]
  refine ⟨?_, ?_, rfl⟩
  · show timestampToTime (le32 (byteSlice b i 32) 0) = timestampToTime 2863311530
    rw [hts]
  · show timestampToTime (le32 (byteSlice b i 32) 0) = "04:18"
    rw [hts]
    decide

/-- Concrete 33-byte buffer: marker at offset 0, type code 0x01, duration 35. -/
def bufC9 : RawBuffer :=
  ⟨33, fun i => if i < 4 then 170 else if i = 4 then 1 else if i = 5 then 35 else 0⟩

/-- C9 witness: the single event decoded from `bufC9` carries the constant
time string and its type code is the byte right after the marker. -/
theorem marker_timestamp_constant_witness :
    (⟨"04:18", "Obstructive Apnea", "Severe", 35, 1, "aaaa_marker", 0⟩ : Event)
      ∈ parseAaaaMarkers bufC9 ∧
    (⟨"04:18", "Obstructive Apnea", "Severe", 35, 1, "aaaa_marker", 0⟩ : Event).time
      = timestampToTime 2863311530 := by
  refine ⟨by decide, ?_⟩
  exact (marker_timestamp_constant bufC9 _ (by decide)).1

/-- Shared core of `_bytes_to_time_estimate`: render a session fraction as a
clock-of-day string, starting at 22:00 and spanning 8 hours; Python's float
`%` and `int()` become subtraction of the floored quotient and `Int.floor`
(all quantities are nonnegative). -/
def timeFromFraction (f : ℚ) : String :=
  pad2 (⌊(22 + f * 8) - 24 * (⌊(22 + f * 8) / 24⌋ : ℤ)⌋).toNat ++ ":" ++
  pad2 (⌊(f * 8 - (⌊f * 8⌋ : ℤ)) * 60⌋).toNat

/-- Model of `DetailedEventAnalyzer._bytes_to_time_estimate`: the session
fraction is the byte position divided by the fixed constant 16777216 (16 MiB),
regardless of the actual buffer length. -/
def bytesToTimeEstimate (pos : ℕ) : String :=
  timeFromFraction ((pos : ℚ) / 16777216)

/-- A synthetic event emitted by the pressure-inference pass, mirroring the
dictionary built in `_infer_events_from_pressure`. -/
structure InferredEvent where
  time : String
  kind : String
  severity : String
  before : ℚ
  after : ℚ
  delta : ℚ
  position : ℕ
deriving DecidableEq

/-- Model of the sampling loop of `_infer_events_from_pressure`: stride 128,
single scaling divisor 13.0, acceptance band `[4, 25]`; returns the accepted
(pressure, byte position) pairs in scan order. -/
def inferScan (b : RawBuffer) : List (ℚ × ℕ) :=
  (stridePositions 128 (b.len - 1)).filterMap fun i =>
    if 4 ≤ (le16 b i : ℚ) / 13 ∧ (le16 b i : ℚ) / 13 ≤ 25 then
      some ((le16 b i : ℚ) / 13, i)
    else none

/-- Model of `DetailedEventAnalyzer._infer_events_from_pressure`: if fewer
than 10 samples are accepted, return no events; otherwise, for each index of
the first-difference sequence whose difference exceeds 3.0, emit an
"Inferred Apnea Response" event (Moderate when the jump exceeds 5.0, else
Mild) positioned and timed at the earlier sample. -/
def inferEventsFromPressure (b : RawBuffer) : List InferredEvent :=
  if (inferScan b).length < 10 then []
  else
    ((inferScan b).zip (inferScan b).tail).enum.filterMap fun p =>
      if 3 < p.2.2.1 - p.2.1.1 ∧ p.1 < (inferScan b).length - 1 then
        some ⟨bytesToTimeEstimate p.2.1.2, "Inferred Apnea Response",
              if 5 < p.2.2.1 - p.2.1.1 then "Moderate" else "Mild",
              p.2.1.1, p.2.2.1, p.2.2.1 - p.2.1.1, p.2.1.2⟩
      else none

/-- Formalisation of C3's wording for comparison with the code: re-sample the
buffer at stride 128 using the same multi-divisor scan as the sample decoder
(divisors `[12.5, 13.0, 13.5, 14.0, 15.0]`) with band `[4.0, 25.0]`, keeping
the sample values. -/
def claimInferValues (b : RawBuffer) : List ℚ :=
  (decodeSamples [12.5, 13, 13.5, 14, 15] 4 25 128 b).map Sample.value

/-- C10: the pressure-inference pass emits no events whenever its stride-128
scan accepts fewer than 10 samples. -/
theorem infer_pass_min_sample_guard (b : RawBuffer)
    (h : (inferScan b).length < 10) : inferEventsFromPressure b = [] := by
  unfold inferEventsFromPressure
  rw [if_pos h]

/-- Concrete 130-byte buffer whose stride-128 scan accepts two samples
(5.0 and 12.0 cmH2O) that differ by more than 3.0. -/
def bufC10 : RawBuffer :=
  ⟨130, fun i => if i = 0 then 65 else if i = 128 then 156 else 0⟩

/-- C10 witness: the two accepted samples jump by 7.0 cmH2O, yet no event is
emitted because fewer than 10 samples were accepted. -/
theorem infer_pass_min_sample_guard_witness :
    inferScan bufC10 = [(5, 0), (12, 128)] ∧
    (inferScan bufC10).length < 10 ∧
    inferEventsFromPressure bufC10 = [] := by
  have hscan : inferScan bufC10 = [(5, 0), (12, 128)] := by
    norm_num [inferScan, stridePositions, le16, bufC10, List.filterMap_cons, List.range_succ]
  have hlen : (inferScan bufC10).length < 10 := by rw [hscan]; norm_num
  exact ⟨hscan, hlen, infer_pass_min_sample_guard bufC10 hlen⟩

/-- C3 (amended): the pressure-inference pass samples the buffer at stride
128 with the single divisor 13.0 (not the multi-divisor scan) and band
`[4.0, 25.0]`; provided at least 10 samples are accepted, it emits an
"Inferred Apnea Response" event at every index of the first-difference
sequence where the difference exceeds 3.0 cmH2O, with severity Moderate if
the jump exceeds 5.0 and Mild otherwise, and it emits nothing else. -/
theorem infer_pass_events :
    (∀ (b : RawBuffer) (idx : ℕ) (a c : ℚ × ℕ),
      10 ≤ (inferScan b).length →
      (inferScan b)[idx]? = some a → (inferScan b)[idx + 1]? = some c →
      3 < c.1 - a.1 →
      (⟨bytesToTimeEstimate a.2, "Inferred Apnea Response",
        if 5 < c.1 - a.1 then "Moderate" else "Mild",
        a.1, c.1, c.1 - a.1, a.2⟩ : InferredEvent) ∈ inferEventsFromPressure b) ∧
    ∀ (b : RawBuffer) (e : InferredEvent), e ∈ inferEventsFromPressure b →
      10 ≤ (inferScan b).length ∧ e.kind = "Inferred Apnea Response" ∧
      3 < e.delta ∧ e.severity = (if 5 < e.delta then "Moderate" else "Mild") ∧
      ∃ (idx : ℕ) (a c : ℚ × ℕ), (inferScan b)[idx]? = some a ∧
        (inferScan b)[idx + 1]? = some c ∧
        e.before = a.1 ∧ e.after = c.1 ∧ e.delta = c.1 - a.1 ∧
        e.position = a.2 ∧ e.time = bytesToTimeEstimate a.2 := by
  constructor
  · intro b idx a c hlen ha hc hjump
    unfold inferEventsFromPressure
    rw [if_neg (by omega)]
    rw [List.mem_filterMap]
    refine ⟨(idx, (a, c)), ?_, ?_⟩
    · rw [List.mem_enum_iff_getElem?]
      show ((inferScan b).zip (inferScan b).tail)[idx]? = some (a, c)
      rw [List.getElem?_zip_eq_some]
      exact ⟨ha, by rw [List.getElem?_tail]; exact hc⟩
    · have hidx : idx + 1 < (inferScan b).length := by
        obtain ⟨h, -⟩ := List.getElem?_eq_some_iff.mp hc
        exact h
      rw [if_pos ⟨hjump, by omega⟩]
  · intro b e hmem
    unfold inferEventsFromPressure at hmem
    by_cases hlen : (inferScan b).length < 10
    · rw [if_pos hlen] at hmem
      exact absurd hmem (List.not_mem_nil e)
    · rw [if_neg hlen] at hmem
      rw [List.mem_filterMap] at hmem
      obtain ⟨p, hp, heq⟩ := hmem
      by_cases hcond : 3 < p.2.2.1 - p.2.1.1 ∧ p.1 < (inferScan b).length - 1
      · rw [if_pos hcond] at heq
        obtain rfl := (Option.some.inj heq).symm
        rw [List.mem_enum_iff_getElem?] at hp
        have hzip := List.getElem?_zip_eq_some.mp hp
        rw [List.getElem?_tail] at hzip
        exact ⟨by omega, rfl, hcond.1, rfl,
          p.1, p.2.1, p.2.2, hzip.1, hzip.2, rfl, rfl, rfl, rfl, rfl⟩
      · rw [if_neg hcond] at heq
        exact absurd heq (by simp)

/-- Concrete 130-byte buffer: raw values 50 (offset 0) and 104 (offset 128).
The claim's multi-divisor scan accepts both (as 4.0 and 8.32: divisor 12.5
matches first), while the code's single-divisor scan rejects 50
(50/13 < 4.0) and accepts only one sample. -/
def bufC3a : RawBuffer :=
  ⟨130, fun i => if i = 0 then 50 else if i = 128 then 104 else 0⟩

/-- Concrete 1282-byte buffer: raw value 52 at the first ten stride-128
offsets and 117 at offset 1280.  Both scans accept all eleven windows, but
with different values: the claim's multi-divisor scan yields 4.16 and 9.36
(divisor 12.5), the code's single-divisor scan yields 4.0 and 9.0
(divisor 13.0). -/
def bufC3b : RawBuffer :=
  ⟨1282, fun i => if i % 128 = 0 ∧ i < 1280 then 52 else if i = 1280 then 117 else 0⟩

/-- C3 counterexample.  On `bufC3a` the claim's multi-divisor scan produces
consecutive samples 4.0 and 8.32 whose difference 4.32 exceeds 3.0, so the
claim requires an event, yet the code emits none (its single-divisor scan
accepts too few samples).  On `bufC3b` the claim's scan produces a jump of
5.2 > 5.0 at index 9, so the claim requires a Moderate event there, yet the
code emits a single Mild event (its single-divisor jump is exactly 5.0). -/
theorem infer_pass_events_counterexample :
    (claimInferValues bufC3a = [4, 208/25] ∧ (3 : ℚ) < 208/25 - 4 ∧
      inferEventsFromPressure bufC3a = []) ∧
    ((claimInferValues bufC3b).getD 9 0 = 104/25 ∧
      (claimInferValues bufC3b).getD 10 0 = 234/25 ∧
      (5 : ℚ) < 234/25 - 104/25 ∧
      (inferEventsFromPressure bufC3b).map InferredEvent.severity = ["Mild"]) := by
  constructor
  · refine ⟨?_, by norm_num, ?_⟩
    · norm_num [claimInferValues, decodeSamples, firstDivMatch, stridePositions, le16,
        bufC3a, List.filterMap_cons, List.range_succ]
    · have hscanA : inferScan bufC3a = [(8, 128)] := by
        norm_num [inferScan, stridePositions, le16, bufC3a, List.filterMap_cons,
          List.range_succ]
      unfold inferEventsFromPressure
      rw [if_pos (by rw [hscanA]; norm_num)]
  · have hclaim : claimInferValues bufC3b =
        [104/25, 104/25, 104/25, 104/25, 104/25, 104/25, 104/25, 104/25, 104/25, 104/25,
         234/25] := by
      norm_num [claimInferValues, decodeSamples, firstDivMatch, stridePositions, le16,
        bufC3b, List.filterMap_cons, List.range_succ]
    have hscan : inferScan bufC3b =
        [(4, 0), (4, 128), (4, 256), (4, 384), (4, 512), (4, 640), (4, 768), (4, 896),
         (4, 1024), (4, 1152), (9, 1280)] := by
      norm_num [inferScan, stridePositions, le16, bufC3b, List.filterMap_cons,
        List.range_succ]
    refine ⟨by rw [hclaim]; norm_num, by rw [hclaim]; norm_num, by norm_num, ?_⟩
    unfold inferEventsFromPressure
    rw [hscan]
    norm_num [List.filterMap_cons, List.enum_cons, List.enumFrom_cons]

/-- C3 witness: on `bufC3b` the code's scan accepts eleven samples, the last
first-difference is 5.0 > 3.0, and the corresponding Mild "Inferred Apnea
Response" event is emitted at the earlier sample's byte position 1152. -/
theorem infer_pass_events_witness :
    (⟨bytesToTimeEstimate 1152, "Inferred Apnea Response", "Mild",
      4, 9, 5, 1152⟩ : InferredEvent) ∈ inferEventsFromPressure bufC3b := by
  have hscan : inferScan bufC3b =
      [(4, 0), (4, 128), (4, 256), (4, 384), (4, 512), (4, 640), (4, 768), (4, 896),
       (4, 1024), (4, 1152), (9, 1280)] := by
    norm_num [inferScan, stridePositions, le16, bufC3b, List.filterMap_cons,
      List.range_succ]
  have h := infer_pass_events.1 bufC3b 9 (4, 1152) (9, 1280)
    (by rw [hscan]; norm_num) (by rw [hscan]; rfl) (by rw [hscan]; rfl) (by norm_num)
  norm_num at h
  exact h

/-- Sorted rearrangement of a sample list (numpy sorts before computing
percentiles). -/
def sortedOf (xs : List ℚ) : List ℚ :=
  xs.insertionSort (· ≤ ·)

/-- Linear interpolation into a sorted list at fractional index `h`, exactly
numpy's default percentile interpolation: value `s[l] + (h - l) * (s[l+1] -
s[l])` with `l = ⌊h⌋` and the upper index clipped to the last element. -/
def interpAt (s : List ℚ) (h : ℚ) : ℚ :=
  s.getD ⌊h⌋.toNat 0 +
    (h - (⌊h⌋.toNat : ℚ)) *
      (s.getD (min (⌊h⌋.toNat + 1) (s.length - 1)) 0 - s.getD ⌊h⌋.toNat 0)

/-- Model of `np.percentile(xs, p)` with linear interpolation: interpolate the
sorted data at fractional index `p * (n - 1) / 100`.  `np.median` coincides
with `percentile 50`. -/
def percentile (xs : List ℚ) (p : ℚ) : ℚ :=
  interpAt (sortedOf xs) (p * ((xs.length : ℚ) - 1) / 100)

/-- Model of `np.min`: the head of the sorted rearrangement. -/
def listMin (xs : List ℚ) : ℚ :=
  (sortedOf xs).headD 0

/-- Model of `np.max`: the last element of the sorted rearrangement. -/
def listMax (xs : List ℚ) : ℚ :=
  (sortedOf xs).getLastD 0

theorem sorted_getD_mono {s : List ℚ} (hs : List.Sorted (· ≤ ·) s) {i j : ℕ}
    (hij : i ≤ j) (hj : j < s.length) : s.getD i 0 ≤ s.getD j 0 := by
  rcases eq_or_lt_of_le hij with rfl | hlt
  · exact le_refl _
  · have hi : i < s.length := lt_trans hlt hj
    rw [List.getD_eq_getElem _ _ hi, List.getD_eq_getElem _ _ hj]
    exact List.pairwise_iff_getElem.mp hs i j hi hj hlt

theorem floor_toNat_cast {h : ℚ} (h0 : 0 ≤ h) : ((⌊h⌋.toNat : ℕ) : ℚ) = (⌊h⌋ : ℚ) := by
  have : (0 : ℤ) ≤ ⌊h⌋ := Int.floor_nonneg.mpr h0
  exact_mod_cast congrArg Int.cast (Int.toNat_of_nonneg this)

theorem floor_toNat_le {h : ℚ} (h0 : 0 ≤ h) : ((⌊h⌋.toNat : ℕ) : ℚ) ≤ h := by
  rw [floor_toNat_cast h0]
  exact Int.floor_le h

theorem lt_floor_toNat_add_one {h : ℚ} (h0 : 0 ≤ h) : h < ((⌊h⌋.toNat : ℕ) : ℚ) + 1 := by
  rw [floor_toNat_cast h0]
  exact_mod_cast Int.lt_floor_add_one h

theorem floor_toNat_le_sub_one {h : ℚ} {n : ℕ} (h0 : 0 ≤ h) (hn : 1 ≤ n)
    (hub : h ≤ (n : ℚ) - 1) : ⌊h⌋.toNat ≤ n - 1 := by
  have h1 : ((⌊h⌋.toNat : ℕ) : ℚ) ≤ (n : ℚ) - 1 := le_trans (floor_toNat_le h0) hub
  have h2 : ((n - 1 : ℕ) : ℚ) = (n : ℚ) - 1 := by
    push_cast [Nat.cast_sub hn]
    ring
  rw [← h2] at h1
  exact_mod_cast h1

theorem interpAt_lower {s : List ℚ} (hs : List.Sorted (· ≤ ·) s) (hne : s ≠ [])
    {h : ℚ} (h0 : 0 ≤ h) (hub : h ≤ (s.length : ℚ) - 1) :
    s.getD ⌊h⌋.toNat 0 ≤ interpAt s h := by
  have hn : 1 ≤ s.length := List.length_pos.mpr hne
  have hl : ⌊h⌋.toNat ≤ s.length - 1 := floor_toNat_le_sub_one h0 hn hub
  have hu : min (⌊h⌋.toNat + 1) (s.length - 1) < s.length := by omega
  have hlu : ⌊h⌋.toNat ≤ min (⌊h⌋.toNat + 1) (s.length - 1) := by omega
  have hac : s.getD ⌊h⌋.toNat 0 ≤ s.getD (min (⌊h⌋.toNat + 1) (s.length - 1)) 0 :=
    sorted_getD_mono hs hlu hu
  have hfrac : 0 ≤ h - (⌊h⌋.toNat : ℚ) := by
    have := floor_toNat_le h0
    linarith
  unfold interpAt
  nlinarith

theorem interpAt_upper {s : List ℚ} (hs : List.Sorted (· ≤ ·) s) (hne : s ≠ [])
    {h : ℚ} (h0 : 0 ≤ h) (hub : h ≤ (s.length : ℚ) - 1) :
    interpAt s h ≤ s.getD (min (⌊h⌋.toNat + 1) (s.length - 1)) 0 := by
  have hn : 1 ≤ s.length := List.length_pos.mpr hne
  have hl : ⌊h⌋.toNat ≤ s.length - 1 := floor_toNat_le_sub_one h0 hn hub
  have hu : min (⌊h⌋.toNat + 1) (s.length - 1) < s.length := by omega
  have hlu : ⌊h⌋.toNat ≤ min (⌊h⌋.toNat + 1) (s.length - 1) := by omega
  have hac : s.getD ⌊h⌋.toNat 0 ≤ s.getD (min (⌊h⌋.toNat + 1) (s.length - 1)) 0 :=
    sorted_getD_mono hs hlu hu
  have hfrac : h - (⌊h⌋.toNat : ℚ) < 1 := by
    have := lt_floor_toNat_add_one h0
    linarith
  unfold interpAt
  nlinarith

theorem interpAt_mono {s : List ℚ} (hs : List.Sorted (· ≤ ·) s) (hne : s ≠ [])
    {h1 h2 : ℚ} (h0 : 0 ≤ h1) (h12 : h1 ≤ h2) (hub : h2 ≤ (s.length : ℚ) - 1) :
    interpAt s h1 ≤ interpAt s h2 := by
  have hn : 1 ≤ s.length := List.length_pos.mpr hne
  have h0' : (0 : ℚ) ≤ h2 := le_trans h0 h12
  have hub1 : h1 ≤ (s.length : ℚ) - 1 := le_trans h12 hub
  have hfl : ⌊h1⌋.toNat ≤ ⌊h2⌋.toNat := by
    have := Int.floor_mono h12
    omega
  rcases eq_or_lt_of_le hfl with heq | hlt
  · have hl : ⌊h1⌋.toNat ≤ s.length - 1 := floor_toNat_le_sub_one h0 hn hub1
    have hu : min (⌊h1⌋.toNat + 1) (s.length - 1) < s.length := by omega
    have hac : s.getD ⌊h1⌋.toNat 0 ≤ s.getD (min (⌊h1⌋.toNat + 1) (s.length - 1)) 0 :=
      sorted_getD_mono hs (by omega) hu
    unfold interpAt
    rw [← heq]
    nlinarith
  · have hl2 : ⌊h2⌋.toNat ≤ s.length - 1 := floor_toNat_le_sub_one h0' hn hub
    have hl2' : ⌊h2⌋.toNat < s.length := by omega
    have hstep : interpAt s h1 ≤ s.getD (min (⌊h1⌋.toNat + 1) (s.length - 1)) 0 :=
      interpAt_upper hs hne h0 hub1
    have hmid : s.getD (min (⌊h1⌋.toNat + 1) (s.length - 1)) 0 ≤ s.getD ⌊h2⌋.toNat 0 :=
      sorted_getD_mono hs (by omega) hl2'
    have hlast : s.getD ⌊h2⌋.toNat 0 ≤ interpAt s h2 := interpAt_lower hs hne h0' hub
    linarith

theorem headD_eq_getD (l : List ℚ) : l.headD 0 = l.getD 0 0 := by
  cases l <;> rfl

theorem getLastD_eq_getD (l : List ℚ) : l.getLastD 0 = l.getD (l.length - 1) 0 := by
  rw [List.getLastD_eq_getLast?, List.getLast?_eq_getElem?, List.getD_eq_getElem?_getD]

/-- Summary statistics of a sample list, mirroring the `statistics` dictionary
of `_analyze_pressure_therapy`: `np.mean`, `np.median` (equal to the 50th
linearly interpolated percentile), `np.percentile` 95 and 5, `np.std`
(recorded by its square, the population variance, since the square root of a
rational is in general irrational; every comparison against `np.std` below is
rephrased on the variance), `np.min`, `np.max`. -/
structure SummaryStats where
  mean : ℚ
  median : ℚ
  p95 : ℚ
  p5 : ℚ
  var : ℚ
  min : ℚ
  max : ℚ
deriving DecidableEq

def summaryStats (ps : List ℚ) : SummaryStats :=
  ⟨ps.sum / ps.length, percentile ps 50, percentile ps 95, percentile ps 5,
   (ps.map fun x => (x - ps.sum / ps.length) ^ 2).sum / ps.length,
   listMin ps, listMax ps⟩

/-- C5: percentile ordering invariant.  For every non-empty sample list the
summary statistics satisfy `min ≤ p5 ≤ median ≤ p95 ≤ max`, the percentiles
being linearly interpolated. -/
theorem percentile_ordering (xs : List ℚ) (hne : xs ≠ []) :
    (summaryStats xs).min ≤ (summaryStats xs).p5 ∧
    (summaryStats xs).p5 ≤ (summaryStats xs).median ∧
    (summaryStats xs).median ≤ (summaryStats xs).p95 ∧
    (summaryStats xs).p95 ≤ (summaryStats xs).max := by
  have hs : List.Sorted (· ≤ ·) (sortedOf xs) := List.sorted_insertionSort _ _
  have hlen : (sortedOf xs).length = xs.length := List.length_insertionSort _ _
  have hxn : 1 ≤ xs.length := List.length_pos.mpr hne
  have hsne : sortedOf xs ≠ [] := by
    intro h
    rw [h] at hlen
    simp only [List.length_nil] at hlen
    omega
  have hN : (1 : ℚ) ≤ (xs.length : ℚ) := by exact_mod_cast hxn
  have hN0 : (0 : ℚ) ≤ (xs.length : ℚ) - 1 := by linarith
  have hslen : ((sortedOf xs).length : ℚ) = (xs.length : ℚ) := by exact_mod_cast hlen
  have h5nn : (0 : ℚ) ≤ 5 * ((xs.length : ℚ) - 1) / 100 := by positivity
  have h50nn : (0 : ℚ) ≤ 50 * ((xs.length : ℚ) - 1) / 100 := by positivity
  have h95ub : 95 * ((xs.length : ℚ) - 1) / 100 ≤ ((sortedOf xs).length : ℚ) - 1 := by
    rw [hslen]; nlinarith
  have h50ub : 50 * ((xs.length : ℚ) - 1) / 100 ≤ ((sortedOf xs).length : ℚ) - 1 := by
    rw [hslen]; nlinarith
  have h5ub : 5 * ((xs.length : ℚ) - 1) / 100 ≤ ((sortedOf xs).length : ℚ) - 1 := by
    rw [hslen]; nlinarith
  refine ⟨?_, ?_, ?_, ?_⟩
  · show listMin xs ≤ percentile xs 5
    unfold listMin percentile
    rw [headD_eq_getD]
    refine le_trans ?_ (interpAt_lower hs hsne h5nn h5ub)
    refine sorted_getD_mono hs (Nat.zero_le _) ?_
    have := floor_toNat_le_sub_one h5nn (hlen ▸ hxn) h5ub
    omega
  · show percentile xs 5 ≤ percentile xs 50
    unfold percentile
    exact interpAt_mono hs hsne h5nn (by nlinarith) h50ub
  · show percentile xs 50 ≤ percentile xs 95
    unfold percentile
    exact interpAt_mono hs hsne h50nn (by nlinarith) h95ub
  · show percentile xs 95 ≤ listMax xs
    unfold listMax percentile
    rw [getLastD_eq_getD]
    refine le_trans (interpAt_upper hs hsne (by positivity) h95ub) ?_
    refine sorted_getD_mono hs ?_ ?_ <;> omega

/-- C5 witness: the invariant holds for the concrete sample list `[9, 5, 7]`. -/
theorem percentile_ordering_witness :
    ([9, 5, 7] : List ℚ) ≠ [] ∧
    ((summaryStats [9, 5, 7]).min ≤ (summaryStats [9, 5, 7]).p5 ∧
     (summaryStats [9, 5, 7]).p5 ≤ (summaryStats [9, 5, 7]).median ∧
     (summaryStats [9, 5, 7]).median ≤ (summaryStats [9, 5, 7]).p95 ∧
     (summaryStats [9, 5, 7]).p95 ≤ (summaryStats [9, 5, 7]).max) :=
  ⟨List.cons_ne_nil 9 [5, 7], percentile_ordering [9, 5, 7] (List.cons_ne_nil 9 [5, 7])⟩

/-- Model of `BMCSleepAnalyzer._calculate_time_in_range`: percentage of
samples inside `[lo, hi]`, with an explicit 0 for the empty list (the Python
`if pressures else 0` guard). -/
def calculateTimeInRange (ps : List ℚ) (lo hi : ℚ) : ℚ :=
  if ps = [] then 0
  else ((ps.countP fun p => decide (lo ≤ p ∧ p ≤ hi)) : ℚ) / ps.length * 100

/-- Model of `BMCSleepAnalyzer._assess_therapeutic_window`: percentage of
samples in `[6, 15]` with a three-way label.  The Python function divides by
`len(pressures)` with no emptiness guard, so an empty input raises
`ZeroDivisionError`, modelled as `none`. -/
def assessTherapeuticWindow (ps : List ℚ) : Option (ℚ × String) :=
  if ps.length = 0 then none
  else
    some (((ps.countP fun p => decide (6 ≤ p ∧ p ≤ 15)) : ℚ) / ps.length * 100,
      if 90 < ((ps.countP fun p => decide (6 ≤ p ∧ p ≤ 15)) : ℚ) / ps.length * 100 then
        "excellent"
      else if 80 < ((ps.countP fun p => decide (6 ≤ p ∧ p ≤ 15)) : ℚ) / ps.length * 100 then
        "good"
      else "needs_improvement")

/-- The samples exceeding `Q3 + 1.5 * IQR` (the list comprehension of
`_analyze_pressure_peaks`). -/
def peaksOf (ps : List ℚ) : List ℚ :=
  ps.filter fun p =>
    decide (percentile ps 75 + 3/2 * (percentile ps 75 - percentile ps 25) < p)

/-- Model of Python `max(l) if l else 0`. -/
def maxOrZero (l : List ℚ) : ℚ :=
  match l with
  | [] => 0
  | x :: xs => xs.foldl max x

/-- Result of the peak-outlier analysis (`_analyze_pressure_peaks`). -/
structure PeakAnalysis where
  count : ℕ
  percentage : ℚ
  highest : ℚ
deriving DecidableEq

/-- Model of `BMCSleepAnalyzer._analyze_pressure_peaks`.  On an empty input
`np.percentile` raises (and the percentage would divide by zero), modelled as
`none`. -/
def analyzePressurePeaks (ps : List ℚ) : Option PeakAnalysis :=
  if ps.length = 0 then none
  else some ⟨(peaksOf ps).length, ((peaksOf ps).length : ℚ) / ps.length * 100,
             maxOrZero (peaksOf ps)⟩

/-- Model of `BMCSleepAnalyzer._assess_pressure_level`. -/
def assessPressureLevel (m : ℚ) : String :=
  if 6 ≤ m ∧ m ≤ 12 then "optimal"
  else if 4 ≤ m ∧ m < 6 then "low_normal"
  else if 12 < m ∧ m ≤ 15 then "high_normal"
  else "requires_adjustment"

/-- Model of `BMCSleepAnalyzer._assess_pressure_stability`, rephrased on the
population variance: `np.std < 2.0` iff `variance < 4.0` and `np.std < 3.0`
iff `variance < 9.0` (the standard deviation is nonnegative). -/
def assessPressureStabilityVar (v : ℚ) : String :=
  if v < 4 then "excellent" else if v < 9 then "good" else "variable"

/-- Model of `BMCSleepAnalyzer._assess_titration_quality`: thresholds on
`max - min`. -/
def assessTitrationQuality (st : SummaryStats) : String :=
  if st.max - st.min < 5 then "well_titrated"
  else if st.max - st.min < 8 then "acceptable"
  else "wide_range"

/-- Result of `_analyze_pressure_therapy`: either the distinguished
"No pressure data available" status or the statistics together with the
assessments and distribution percentages. -/
inductive PressureTherapyResult where
  | noData
  | analysis (stats : SummaryStats) (level stability titration : String)
      (window : ℚ × String) (timeInOptimal timeAbove15 timeBelow6 : ℚ)
      (peaks : PeakAnalysis)
deriving DecidableEq

/-- Model of `BMCSleepAnalyzer._analyze_pressure_therapy`: an empty sample
set yields the distinguished no-data status before any helper is invoked;
otherwise the statistics, assessments and distribution are computed.  The
result is `none` exactly when one of the helpers raises. -/
def analyzePressureTherapy (ps : List ℚ) : Option PressureTherapyResult :=
  if ps = [] then some .noData
  else
    match assessTherapeuticWindow ps, analyzePressurePeaks ps with
    | some w, some pk =>
        some (.analysis (summaryStats ps)
          (assessPressureLevel (summaryStats ps).mean)
          (assessPressureStabilityVar (summaryStats ps).var)
          (assessTitrationQuality (summaryStats ps)) w
          (calculateTimeInRange ps 6 12) (calculateTimeInRange ps 15 25)
          (calculateTimeInRange ps 0 6) pk)
    | _, _ => none

/-- C4 counterexample: applied directly to an empty sample sequence, the
therapeutic-window assessment and the peak-outlier analysis do not return a
"no data" result — they raise (`ZeroDivisionError` resp. `np.percentile` on
an empty array), modelled as `none`. -/
theorem empty_input_safety_counterexample :
    assessTherapeuticWindow [] = none ∧ analyzePressurePeaks [] = none :=
  ⟨rfl, rfl⟩

/-- C4 (amended): the guarded entry point `_analyze_pressure_therapy` returns
the distinguished "No pressure data available" status on an empty sample
sequence, and `_calculate_time_in_range` returns 0 on an empty sequence; the
unguarded helpers `_assess_therapeutic_window` and `_analyze_pressure_peaks`
raise when applied directly to an empty sequence, but succeed on every
non-empty sequence — which is the only way the pipeline invokes them. -/
theorem empty_input_safety :
    analyzePressureTherapy [] = some .noData ∧
    (∀ lo hi : ℚ, calculateTimeInRange [] lo hi = 0) ∧
    ∀ ps : List ℚ, ps ≠ [] →
      (assessTherapeuticWindow ps).isSome ∧ (analyzePressurePeaks ps).isSome ∧
      (analyzePressureTherapy ps).isSome := by
  refine ⟨rfl, fun lo hi => rfl, ?_⟩
  intro ps hne
  have hlen : ps.length ≠ 0 := fun h => hne (List.length_eq_zero.mp h)
  have hw : (assessTherapeuticWindow ps).isSome := by
    unfold assessTherapeuticWindow
    rw [if_neg hlen]
    rfl
  have hpk : (analyzePressurePeaks ps).isSome := by
    unfold analyzePressurePeaks
    rw [if_neg hlen]
    rfl
  refine ⟨hw, hpk, ?_⟩
  obtain ⟨w, hw'⟩ := Option.isSome_iff_exists.mp hw
  obtain ⟨pk, hpk'⟩ := Option.isSome_iff_exists.mp hpk
  unfold analyzePressureTherapy
  rw [if_neg hne, hw', hpk']
  rfl

/-- C4 witness: on the concrete non-empty list `[7]` every summarization
helper succeeds. -/
theorem empty_input_safety_witness :
    (assessTherapeuticWindow [(7 : ℚ)]).isSome ∧
    (analyzePressurePeaks [(7 : ℚ)]).isSome ∧
    (analyzePressureTherapy [(7 : ℚ)]).isSome :=
  empty_input_safety.2.2 [7] (List.cons_ne_nil 7 [])

/-- Model of `BMCCPAPAnalyzer.calculate_correlation`, with the reference
record's mean and p95 pressures as parameters (`self.mobile_reference`).
An empty pressure list returns score 0.0 with no component diffs before any
division; a zero reference value would raise `ZeroDivisionError`, modelled as
`none`; otherwise the score is the unweighted average of the two per-metric
similarities `max(0, 1 - diff/reference)`, returned with the component
diffs. -/
def calculateCorrelation (refMean refP95 : ℚ) (ps : List ℚ) :
    Option (ℚ × List (String × ℚ)) :=
  if ps = [] then some (0, [])
  else if refMean = 0 ∨ refP95 = 0 then none
  else
    some ((max 0 (1 - |ps.sum / ps.length - refMean| / refMean) +
           max 0 (1 - |percentile ps 95 - refP95| / refP95)) / 2,
          [("pressure_diff", |ps.sum / ps.length - refMean|),
           ("p95_diff", |percentile ps 95 - refP95|)])

/-- The reference values hard-coded in `self.mobile_reference`:
`avg_pressure = 8.0` and `p95_pressure = 9.5`. -/
def mobileRefMean : ℚ := 8

def mobileRefP95 : ℚ := 19/2

/-- C6 counterexample: with a negative reference record (mean −8, p95 −9.5)
and the single decoded pressure 8.0, the correlation score is 111/38 > 1, so
the score is not bounded by 1 for arbitrary reference records. -/
theorem correlation_score_bound_counterexample :
    calculateCorrelation (-8) (-19/2) [8] =
      some (111/38, [("pressure_diff", 16), ("p95_diff", 35/2)]) ∧
    (1 : ℚ) < 111/38 := by
  have h95 : percentile [(8 : ℚ)] 95 = 8 := by
    norm_num [percentile, sortedOf, interpAt, List.insertionSort, List.orderedInsert]
  constructor
  · unfold calculateCorrelation
    rw [if_neg (by simp), if_neg (by norm_num), h95]
    have hsum : (([(8 : ℚ)].sum : ℚ) / (([(8 : ℚ)].length : ℕ) : ℚ)) = 8 := by norm_num
    rw [hsum]
    have e1 : |(8 : ℚ) - (-8)| = 16 := by
      rw [abs_of_nonneg (by norm_num)]; norm_num
    have e2 : |(8 : ℚ) - (-19/2)| = 35/2 := by
      rw [abs_of_nonneg (by norm_num)]; norm_num
    rw [e1, e2]
    have m1 : max (0 : ℚ) (1 - 16 / (-8)) = 3 := by
      rw [max_eq_right (by norm_num)]; norm_num
    have m2 : max (0 : ℚ) (1 - 35/2 / (-19/2)) = 54/19 := by
      rw [max_eq_right (by norm_num)]; norm_num
    rw [m1, m2]
    norm_num
  · norm_num

/-- C6 (amended): for every reference record with strictly positive mean and
p95 reference pressures, the correlation score lies in `[0, 1]`; an empty
pressure list yields score 0.0 with empty component diffs rather than an
exception. -/
theorem correlation_score_bound :
    (∀ refMean refP95 : ℚ, calculateCorrelation refMean refP95 [] = some (0, [])) ∧
    ∀ (refMean refP95 : ℚ) (ps : List ℚ), 0 < refMean → 0 < refP95 →
      ∃ r, calculateCorrelation refMean refP95 ps = some r ∧ 0 ≤ r.1 ∧ r.1 ≤ 1 := by
  constructor
  · intro refMean refP95
    rfl
  · intro refMean refP95 ps h1 h2
    by_cases hps : ps = []
    · subst hps
      exact ⟨(0, []), rfl, le_refl 0, by norm_num⟩
    · unfold calculateCorrelation
      rw [if_neg hps, if_neg (by push_neg; exact ⟨ne_of_gt h1, ne_of_gt h2⟩)]
      refine ⟨_, rfl, ?_, ?_⟩
      · have a1 : (0 : ℚ) ≤ max 0 (1 - |ps.sum / ps.length - refMean| / refMean) :=
          le_max_left 0 _
        have a2 : (0 : ℚ) ≤ max 0 (1 - |percentile ps 95 - refP95| / refP95) :=
          le_max_left 0 _
        have : (0 : ℚ) ≤ (max 0 (1 - |ps.sum / ps.length - refMean| / refMean) +
            max 0 (1 - |percentile ps 95 - refP95| / refP95)) := by linarith
        positivity
      · have b1 : max 0 (1 - |ps.sum / ps.length - refMean| / refMean) ≤ 1 := by
          refine max_le (by norm_num) ?_
          have : (0 : ℚ) ≤ |ps.sum / ps.length - refMean| / refMean :=
            div_nonneg (abs_nonneg _) h1.le
          linarith
        have b2 : max 0 (1 - |percentile ps 95 - refP95| / refP95) ≤ 1 := by
          refine max_le (by norm_num) ?_
          have : (0 : ℚ) ≤ |percentile ps 95 - refP95| / refP95 :=
            div_nonneg (abs_nonneg _) h2.le
          linarith
        linarith

/-- C6 witness: with the code's actual reference values (mean 8.0, p95 9.5,
both positive) and the decoded list `[8]`, the score exists and lies in
`[0, 1]`. -/
theorem correlation_score_bound_witness :
    (0 : ℚ) < mobileRefMean ∧ (0 : ℚ) < mobileRefP95 ∧
    ∃ r, calculateCorrelation mobileRefMean mobileRefP95 [8] = some r ∧
      0 ≤ r.1 ∧ r.1 ≤ 1 :=
  ⟨by norm_num [mobileRefMean], by norm_num [mobileRefP95],
   correlation_score_bound.2 mobileRefMean mobileRefP95 [8]
     (by norm_num [mobileRefMean]) (by norm_num [mobileRefP95])⟩

/-- C7: classifier boundary exactness for the pressure level.  Both bounds of
the optimal band `[6, 12]` are inclusive; `[4, 6)` is low_normal, `(12, 15]`
is high_normal, and everything outside `[4, 15]` requires adjustment. -/
theorem pressure_level_boundaries :
    assessPressureLevel 6 = "optimal" ∧
    assessPressureLevel 5.999 = "low_normal" ∧
    assessPressureLevel 12 = "optimal" ∧
    assessPressureLevel 12.001 = "high_normal" ∧
    (∀ m : ℚ, 4 ≤ m → m < 6 → assessPressureLevel m = "low_normal") ∧
    (∀ m : ℚ, 12 < m → m ≤ 15 → assessPressureLevel m = "high_normal") ∧
    ∀ m : ℚ, m < 4 ∨ 15 < m → assessPressureLevel m = "requires_adjustment" := by
  refine ⟨by norm_num [assessPressureLevel], by norm_num [assessPressureLevel],
    by norm_num [assessPressureLevel], by norm_num [assessPressureLevel], ?_, ?_, ?_⟩
  · intro m h1 h2
    unfold assessPressureLevel
    rw [if_neg (by rintro ⟨a, -⟩; linarith), if_pos ⟨h1, h2⟩]
  · intro m h1 h2
    unfold assessPressureLevel
    rw [if_neg (by rintro ⟨-, a⟩; linarith), if_neg (by rintro ⟨-, a⟩; linarith),
        if_pos ⟨h1, h2⟩]
  · intro m hm
    unfold assessPressureLevel
    rcases hm with hm | hm
    · rw [if_neg (by rintro ⟨a, -⟩; linarith), if_neg (by rintro ⟨a, -⟩; linarith),
          if_neg (by rintro ⟨a, -⟩; linarith)]
    · rw [if_neg (by rintro ⟨-, a⟩; linarith), if_neg (by rintro ⟨-, a⟩; linarith),
          if_neg (by rintro ⟨-, a⟩; linarith)]

/-- C7 witness: interior points of each band. -/
theorem pressure_level_boundaries_witness :
    assessPressureLevel 5 = "low_normal" ∧ assessPressureLevel 13 = "high_normal" ∧
    assessPressureLevel 3 = "requires_adjustment" :=
  ⟨pressure_level_boundaries.2.2.2.2.1 5 (by norm_num) (by norm_num),
   pressure_level_boundaries.2.2.2.2.2.1 13 (by norm_num) (by norm_num),
   pressure_level_boundaries.2.2.2.2.2.2 3 (Or.inl (by norm_num))⟩

/-- Formalisation of C8's wording for comparison with the code: the session
fraction is the byte position divided by the total buffer size. -/
def specTimeEstimate (pos total : ℕ) : String :=
  timeFromFraction ((pos : ℚ) / (total : ℚ))

/-- C8 counterexample: for the last byte (position 99) of a 100-byte buffer,
the claim's mapping (offset over total buffer size) would give "05:55" — the
end of the 8-hour session — while the code gives "22:00", because the code
divides by the fixed constant 16777216 instead of the buffer size. -/
theorem position_time_estimate_counterexample :
    bytesToTimeEstimate 99 = "22:00" ∧ specTimeEstimate 99 100 = "05:55" ∧
    bytesToTimeEstimate 99 ≠ specTimeEstimate 99 100 := by
  have h1 : bytesToTimeEstimate 99 = pad2 22 ++ ":" ++ pad2 0 := by
    unfold bytesToTimeEstimate timeFromFraction
    norm_num
    decide
  have h2 : specTimeEstimate 99 100 = pad2 5 ++ ":" ++ pad2 55 := by
    unfold specTimeEstimate timeFromFraction
    norm_num
    decide
  refine ⟨?_, ?_, ?_⟩
  · rw [h1]; decide
  · rw [h2]; decide
  · rw [h1, h2]; decide

/-- C8 (amended): the clock-of-day string for a byte position treats the file
as an 8-hour session starting at 22:00 with elapsed time proportional to the
byte offset divided by the fixed nominal size 16777216 (16 MiB) — not the
actual buffer length. -/
theorem position_time_estimate (pos : ℕ) :
    bytesToTimeEstimate pos = specTimeEstimate pos 16777216 := by
  unfold bytesToTimeEstimate specTimeEstimate
  norm_num
